import Mathlib

/-!
Verification of the corpus pipeline (`lab_6_pipeline/pipeline.py`): a shallow
embedding of the `CorpusManager` dataset validation, the text-processing run,
the POS-frequency computation, the annotation-artifact loader, and the
pattern-search engine, together with theorems settling the specified claims.
-/

namespace Pipeline

/-- Faults raised by the pipeline, mirroring the exception classes of the
source: `FileNotFoundError`, `NotADirectoryError`, `EmptyDirectoryError`,
`InconsistentDatasetError` (which carries a message) and `EmptyFileError`. -/
inductive Fault where
  | pathNotFound
  | notADirectory
  | emptyDataset
  | inconsistentDataset (msg : String)
  | emptyArtifact
  deriving DecidableEq

/-- A directory entry: a file with a name and its content.  The file size used
by `stat().st_size` is modelled as the length of the content. -/
structure DirEntry where
  name : String
  content : String
  deriving DecidableEq

/-- Size of a directory entry, standing for `stat().st_size`. -/
def DirEntry.size (e : DirEntry) : Nat :=
  e.content.length

/-- The possible states of a filesystem path handed to `CorpusManager`:
absent, an ordinary file, or a directory with its entries. -/
inductive FsPath where
  | missing
  | file
  | dir (entries : List DirEntry)

/-- `endswith` of Python strings, on the character lists of Lean strings. -/
def nameEndsWith (s suff : String) : Bool :=
  List.isSuffixOf suff.data s.data

/-- Value of a list of decimal digit characters, most significant first. -/
def digitsVal (ds : List Char) : Nat :=
  ds.foldl (fun n c => n * 10 + (c.toNat - 48)) 0

/-- Modelled from the spec: `get_article_id_from_filepath` lives in
`core_utils` outside this repository slice; per the spec, "the extracted
numeric id is parsed from the filename prefix", so the maximal leading run of
decimal digits of the filename is read as a number. -/
def get_article_id_from_filename (name : String) : Nat :=
  digitsVal (name.data.takeWhile Char.isDigit)

/-- The single loop of `_validate_dataset` that sorts filenames into the meta
family (suffix `_meta.json`) and, otherwise, the raw family
(suffix `_raw.txt`). -/
def classifyFamilies (entries : List DirEntry) : List String × List String :=
  entries.foldl
    (fun acc e =>
      if nameEndsWith e.name "_meta.json" then (acc.1 ++ [e.name], acc.2)
      else if nameEndsWith e.name "_raw.txt" then (acc.1, acc.2 ++ [e.name])
      else acc)
    ([], [])

/-- Python `set(a) == set(b)` for lists: mutual membership. -/
def sameSet {α : Type} [DecidableEq α] (a b : List α) : Bool :=
  (a.all fun x => decide (x ∈ b)) && (b.all fun x => decide (x ∈ a))

/-- The expected meta filenames `1_meta.json`, …, `n_meta.json`. -/
def meta_template (n : Nat) : List String :=
  (List.range n).map (fun c => Nat.repr (c + 1) ++ "_meta.json")

/-- The expected raw filenames `1_raw.txt`, …, `n_raw.txt`. -/
def raw_template (n : Nat) : List String :=
  (List.range n).map (fun c => Nat.repr (c + 1) ++ "_raw.txt")

/-- `CorpusManager._validate_dataset`: path checks, family cardinality and
id-template checks, then the zero-size check over every entry. -/
def validate_dataset (p : FsPath) : Except Fault Unit :=
  match p with
  | .missing => .error .pathNotFound
  | .file => .error .notADirectory
  | .dir entries =>
    if entries.isEmpty then .error .emptyDataset
    else
      let fams := classifyFamilies entries
      if fams.1.length ≠ fams.2.length then
        .error (.inconsistentDataset "meta and raw counts differ")
      else if ¬ sameSet fams.1 (meta_template fams.1.length) then
        .error (.inconsistentDataset "IDs of meta files are inconsistent")
      else if ¬ sameSet fams.2 (raw_template fams.2.length) then
        .error (.inconsistentDataset "IDs of raw files are inconsistent")
      else if entries.any (fun e => e.size == 0) then
        .error (.inconsistentDataset "empty file")
      else .ok ()

/-- `CorpusManager._scan_dataset`: the storage maps the id parsed from each
`*_raw.txt` filename to that article's raw text. -/
def scan_dataset (entries : List DirEntry) : List (Nat × String) :=
  (entries.filter (fun e => nameEndsWith e.name "_raw.txt")).map
    (fun e => (get_article_id_from_filename e.name, e.content))

/-- `CorpusManager.__init__`: validate, then scan; `get_articles` returns the
resulting storage. -/
def corpus_manager_init (p : FsPath) : Except Fault (List (Nat × String)) :=
  match validate_dataset p with
  | .error f => .error f
  | .ok _ =>
    match p with
    | .dir entries => .ok (scan_dataset entries)
    | _ => .ok []

/-- The list `[1, …, n]` of expected article ids. -/
def oneTo (n : Nat) : List Nat :=
  (List.range n).map (fun c => c + 1)

/-- The numeric prefixes of a family of filenames are exactly the set
`{1, …, count}` where `count` is the family's size. -/
def prefixesExact (names : List String) : Bool :=
  sameSet (names.map get_article_id_from_filename) (oneTo names.length)

/-- The character list of `Nat.repr`. -/
def repChars (n : Nat) : List Char :=
  Nat.toDigits 10 n

/-- A dataset with a gap: meta ids are `{1, 2}` but raw ids are `{1, 3}`,
although the two families have the same cardinality. -/
def gapEntries : List DirEntry :=
  [⟨"1_meta.json", "m1"⟩, ⟨"2_meta.json", "m2"⟩, ⟨"1_raw.txt", "r1"⟩, ⟨"3_raw.txt", "r3"⟩]

/-- A consistent one-article dataset. -/
def oneArticleEntries : List DirEntry :=
  [⟨"1_raw.txt", "text one"⟩, ⟨"1_meta.json", "meta one"⟩]

/-- A dataset whose meta file is empty while every name check passes. -/
def emptyMetaEntries : List DirEntry :=
  [⟨"1_meta.json", ""⟩, ⟨"1_raw.txt", "r"⟩]

/-- A dataset with an empty derived file that belongs to neither family. -/
def emptyCleanedEntries : List DirEntry :=
  [⟨"1_meta.json", "m"⟩, ⟨"1_raw.txt", "r"⟩, ⟨"1_cleaned.txt", ""⟩]

/-- A non-empty directory containing no family files at all. -/
def noFamilyEntries : List DirEntry :=
  [⟨"notes.txt", "hello"⟩]

/-- A word of an annotated sentence: CoNLL-U token id, surface form,
universal POS tag, head token id (0 for the sentence root) and dependency
relation label. -/
structure Word where
  id : Nat
  form : String
  upos : String
  head : Nat
  deprel : String
  deriving DecidableEq

/-- An annotated document: a sequence of sentences, each an ordered sequence
of words. -/
abbrev ConlluDoc : Type := List (List Word)

/-- Insertion-ordered key list of a Python dict comprehension over a list. -/
def pyDictKeys (l : List String) : List String :=
  l.foldl (fun acc k => if k ∈ acc then acc else acc ++ [k]) []

/-- The dict comprehension of `_count_frequencies` for one sentence: each POS
tag occurring in the sentence mapped to its occurrence count there. -/
def sentence_pos_dict (ws : List Word) : List (String × Nat) :=
  (pyDictKeys (ws.map Word.upos)).map
    (fun pos => (pos, (ws.map Word.upos).count pos))

/-- `POSFrequencyPipeline._count_frequencies`: the loop rebinds
`pos_frequencies` to a fresh dict on every sentence, so the returned value is
the dict of the final iteration (or the initial empty dict for a document
with no sentences). -/
def count_frequencies (doc : ConlluDoc) : List (String × Nat) :=
  doc.foldl (fun _ sentence => sentence_pos_dict sentence) []

/-- Modelled from the spec: the per-document histogram policy of the spec,
"counts accumulate across all sentences in the document" — each POS tag of
the document mapped to its occurrence count over the concatenation of all
sentences. -/
def spec_pos_frequencies (doc : ConlluDoc) : List (String × Nat) :=
  (pyDictKeys (doc.flatten.map Word.upos)).map
    (fun pos => (pos, (doc.flatten.map Word.upos).count pos))

/-- A two-sentence document: a `NOUN` in the first sentence and a `VERB` in
the second. -/
def twoSentenceDoc : ConlluDoc :=
  [[⟨1, "cat", "NOUN", 0, "root"⟩], [⟨1, "sleeps", "VERB", 0, "root"⟩]]

/-- `UDPipeAnalyzer.from_conllu`: fail with the empty-artifact fault when the
on-disk artifact is zero-length, else return the parsed document.  The
CoNLL-U parser of the external library is abstracted as the `parse`
argument. -/
def from_conllu (parse : String → ConlluDoc) (content : String) : Except Fault ConlluDoc :=
  if content.length = 0 then .error .emptyArtifact
  else .ok (parse content)

/-- Python `text.replace('NBSP', '')` on the character list: scan left to
right and drop every occurrence of the four-character marker. -/
def stripAux : List Char → List Char
  | [] => []
  | 'N' :: 'B' :: 'S' :: 'P' :: rest => stripAux rest
  | c :: rest => c :: stripAux rest

/-- Strip the designated placeholder marker token from a text. -/
def strip_placeholder (s : String) : String :=
  (stripAux s.data).asString

/-- An article as seen by `TextProcessingPipeline`: its text and the CoNLL-U
markup attached by `set_conllu_info` (absent before the run). -/
structure Article where
  text : String
  conllu : Option String := none
  deriving DecidableEq

/-- Observable actions of `TextProcessingPipeline.run`, in order: the batch
`analyze` call, each cleaned-text write (`to_cleaned`) and each artifact
write (`to_conllu`). -/
inductive TraceEvent where
  | analyzeCall (texts : List String)
  | cleanedWrite (text : String)
  | conlluWrite (doc : Option String)
  deriving DecidableEq

/-- Whether an event is the batch annotate call. -/
def TraceEvent.isAnalyzeCall : TraceEvent → Bool
  | .analyzeCall _ => true
  | _ => false

/-- The body of the `for idx, article in enumerate(...)` loop of
`TextProcessingPipeline.run`: strip the placeholder from the text, persist
the cleaned text, attach the `idx`-th batch result, persist the artifact. -/
def tpp_process (conllu : List String) : Nat → List Article → List TraceEvent × List Article
  | _, [] => ([], [])
  | idx, a :: rest =>
    let cleaned := strip_placeholder a.text
    let d := conllu[idx]?
    let next := tpp_process conllu (idx + 1) rest
    (TraceEvent.cleanedWrite cleaned :: TraceEvent.conlluWrite d :: next.1,
     { text := cleaned, conllu := d } :: next.2)

/-- `TextProcessingPipeline.run`: one batch `analyze` call over the raw texts
of all articles in corpus order, then the per-article loop. -/
def tpp_run (analyze : List String → List String) (articles : List Article) :
    List TraceEvent × List Article :=
  let conllu := analyze (articles.map Article.text)
  let next := tpp_process conllu 0 articles
  (TraceEvent.analyzeCall (articles.map Article.text) :: next.1, next.2)

/-- A demo batch annotator: marks each input text. -/
def demoAnalyze (texts : List String) : List String :=
  texts.map (fun t => t ++ "#")

/-- Two demo articles, the first holding a placeholder marker. -/
def demoArticles : List Article :=
  [{ text := "aNBSPb" }, { text := "c" }]

/-- A labeled edge of a per-sentence dependency graph, from the head to the
dependent. -/
structure DepEdge where
  src : Nat
  dst : Nat
  label : String
  deriving DecidableEq

/-- Modelled from the spec: the per-sentence `DiGraph` built by
`_make_graphs` (whose body is absent from the source) — "add one node per
Word (labeled by POS tag), and one edge per Word whose head ≠ 0, from head-id
to word-id, labeled by the word's relation label". -/
structure DepGraph where
  nodes : List (Nat × String)
  edges : List DepEdge
  deriving DecidableEq

/-- Modelled from the spec: graph construction for one sentence (§4.5
step 1). -/
def make_graph (sentence : List Word) : DepGraph :=
  { nodes := sentence.map (fun w => (w.id, w.upos)),
    edges := (sentence.filter (fun w => w.head ≠ 0)).map
      (fun w => { src := w.head, dst := w.id, label := w.deprel }) }

/-- Modelled from the spec: `_make_graphs` builds one dependency graph per
sentence of the document; graphs do not cross sentence boundaries. -/
def make_graphs (doc : ConlluDoc) : List DepGraph :=
  doc.map make_graph

/-- POS tag attached to a node of a dependency graph. -/
def tagOf (g : DepGraph) (n : Nat) : String :=
  ((g.nodes.lookup n).getD "")

/-- The dependents of a node: destinations of its outgoing edges. -/
def childrenOf (g : DepGraph) (n : Nat) : List Nat :=
  (g.edges.filter (fun e => e.src == n)).map DepEdge.dst

/-- A match-tree node `{id, tag, children}` as serialized by the
pattern-search output. -/
inductive TreeNode where
  | node (id : Nat) (tag : String) (children : List TreeNode)

/-- Root id of a match tree. -/
def TreeNode.rootId : TreeNode → Nat
  | .node i _ _ => i

/-- Root tag of a match tree. -/
def TreeNode.rootTag : TreeNode → String
  | .node _ t _ => t

/-- Immediate subtrees of a match tree. -/
def TreeNode.childNodes : TreeNode → List TreeNode
  | .node _ _ cs => cs

/-- Membership of a node id in a match tree. -/
inductive MemTree : Nat → TreeNode → Prop where
  | here (i : Nat) (t : String) (cs : List TreeNode) : MemTree i (.node i t cs)
  | child {n i : Nat} {t : String} {cs : List TreeNode} (c : TreeNode) :
      c ∈ cs → MemTree n c → MemTree n (.node i t cs)

/-- Modelled from the spec: `_add_children` (body absent from the source)
attaches, under a node, every node reachable by following outgoing edges
transitively.  The fuel argument bounds the recursion depth; the engine calls
it with the node count of the graph, which suffices on acyclic graphs. -/
def build_subtree (g : DepGraph) : Nat → Nat → TreeNode
  | 0, n => .node n (tagOf g n) []
  | fuel + 1, n => .node n (tagOf g n) ((childrenOf g n).map (build_subtree g fuel))

/-- Whether an edge matches the pattern (root tag, relation label, child
tag): the head's tag, the edge label and the dependent's tag all agree. -/
def matches_edge (pat : String × String × String) (g : DepGraph) (e : DepEdge) : Bool :=
  tagOf g e.src == pat.1 && e.label == pat.2.1 && tagOf g e.dst == pat.2.2

/-- Modelled from the spec: the `MatchTree` for one matching edge `(h → c)` —
rooted at `h`, with the single immediate child `c` carrying `c`'s entire
governed subtree (§4.5 step 3). -/
def make_match_tree (g : DepGraph) (e : DepEdge) : TreeNode :=
  .node e.src (tagOf g e.src) [build_subtree g g.nodes.length e.dst]

/-- All match trees of one sentence graph: one per matching edge, scanning
every edge. -/
def graph_matches (pat : String × String × String) (g : DepGraph) : List TreeNode :=
  (g.edges.filter (matches_edge pat g)).map (make_match_tree g)

/-- Modelled from the spec: `_find_pattern` (body absent from the source)
collects matches per sentence index of the document. -/
def find_pattern (pat : String × String × String) (doc_graphs : List DepGraph) :
    List (Nat × List TreeNode) :=
  doc_graphs.enum.map (fun p => (p.1, graph_matches pat p.2))

/-- Paths of a fixed length along the edges of a dependency graph. -/
inductive PathN (g : DepGraph) : Nat → Nat → Nat → Prop where
  | refl (a : Nat) : PathN g a a 0
  | step {a d k : Nat} (e : DepEdge) :
      e ∈ g.edges → e.src = a → PathN g e.dst d k → PathN g a d (k + 1)

/-- Reachability along the edges of a dependency graph. -/
def Reaches (g : DepGraph) (a b : Nat) : Prop :=
  ∃ k, PathN g a b k

/-- Paths carrying the list of visited nodes (the endpoint excluded). -/
inductive PathL (g : DepGraph) : Nat → Nat → List Nat → Prop where
  | refl (a : Nat) : PathL g a a [a]
  | step {a d : Nat} {l : List Nat} (e : DepEdge) :
      e ∈ g.edges → e.src = a → PathL g e.dst d l → PathL g a d (a :: l)

/-- A dependency graph with no non-trivial cycle. -/
def Acyclic (g : DepGraph) : Prop :=
  ∀ a k, PathN g a a k → k = 0

/-- The node ids of a dependency graph. -/
def nodeIds (g : DepGraph) : List Nat :=
  g.nodes.map Prod.fst

/-- Scenario C sentence: a verb governs a noun object, which itself governs a
determiner and an adjectival modifier. -/
def scenarioCSentence : List Word :=
  [⟨1, "reads", "VERB", 0, "root"⟩,
   ⟨2, "book", "NOUN", 1, "obj"⟩,
   ⟨3, "the", "DET", 2, "det"⟩,
   ⟨4, "thick", "ADJ", 2, "amod"⟩]

/-- The dependency graph of the Scenario C sentence. -/
def scenarioCGraph : DepGraph :=
  make_graph scenarioCSentence

/-- The pattern edge of Scenario C: the verb governs the noun as object. -/
def scenarioCEdge : DepEdge :=
  ⟨1, 2, "obj"⟩

/-- The Scenario C pattern (root tag, relation label, child tag). -/
def scenarioCPattern : String × String × String :=
  ("VERB", "obj", "NOUN")

end Pipeline

namespace Pipeline

theorem tdc_acc (b : Nat) (f : Nat) : ∀ (n : Nat) (ds : List Char),
    Nat.toDigitsCore b f n ds = Nat.toDigitsCore b f n [] ++ ds := by
  induction f with
  | zero => intro n ds; simp [Nat.toDigitsCore]
  | succ f ih =>
    intro n ds
    simp only [Nat.toDigitsCore]
    by_cases h : n / b = 0
    · simp [h]
    · simp only [h, if_false]
      rw [ih (n / b) (Nat.digitChar (n % b) :: ds), ih (n / b) [Nat.digitChar (n % b)]]
      simp

theorem tdc_fuel : ∀ (n f1 f2 : Nat), n < f1 → n < f2 →
    Nat.toDigitsCore 10 f1 n [] = Nat.toDigitsCore 10 f2 n [] := by
  intro n
  induction n using Nat.strong_induction_on with
  | _ n ih =>
    intro f1 f2 h1 h2
    match f1, f2, h1, h2 with
    | f1 + 1, f2 + 1, h1, h2 =>
      simp only [Nat.toDigitsCore]
      by_cases h : n / 10 = 0
      · simp [h]
      · simp only [h, if_false]
        rw [tdc_acc, tdc_acc 10 f2]
        have hn : 0 < n := by
          rcases Nat.eq_zero_or_pos n with h0 | h0
          · exact absurd (by simp [h0]) h
          · exact h0
        have hlt : n / 10 < n := Nat.div_lt_self hn (by norm_num)
        rw [ih (n / 10) hlt f1 f2 (by omega) (by omega)]

theorem repChars_lt10 (n : Nat) (h : n < 10) : repChars n = [Nat.digitChar n] := by
  simp only [repChars, Nat.toDigits, Nat.toDigitsCore]
  rw [Nat.div_eq_of_lt h]
  simp [Nat.mod_eq_of_lt h]

theorem repChars_ge10 (n : Nat) (h : 10 ≤ n) :
    repChars n = repChars (n / 10) ++ [Nat.digitChar (n % 10)] := by
  have h0 : ¬ (n / 10 = 0) := by
    have : 0 < n / 10 := Nat.div_pos h (by norm_num)
    omega
  have e2 : repChars n = Nat.toDigitsCore 10 n (n / 10) [Nat.digitChar (n % 10)] := by
    show Nat.toDigitsCore 10 (n + 1) n [] = _
    simp only [Nat.toDigitsCore, h0, if_false]
  rw [e2, tdc_acc]
  have e3 : Nat.toDigitsCore 10 n (n / 10) [] = Nat.toDigitsCore 10 (n / 10 + 1) (n / 10) [] :=
    tdc_fuel (n / 10) n (n / 10 + 1)
      (by
        have : n / 10 < n := Nat.div_lt_self (by omega) (by norm_num)
        omega)
      (by omega)
  rw [e3]
  rfl

theorem digitChar_isDigit (n : Nat) (h : n < 10) : (Nat.digitChar n).isDigit = true := by
  interval_cases n <;> decide

theorem digitChar_val48 (n : Nat) (h : n < 10) : (Nat.digitChar n).toNat - 48 = n := by
  interval_cases n <;> decide

theorem repChars_all_digits (n : Nat) : ∀ c ∈ repChars n, c.isDigit = true := by
  induction n using Nat.strong_induction_on with
  | _ n ih =>
    by_cases h : n < 10
    · rw [repChars_lt10 n h]
      intro c hc
      simp only [List.mem_singleton] at hc
      subst hc
      exact digitChar_isDigit n h
    · rw [repChars_ge10 n (by omega)]
      intro c hc
      rcases List.mem_append.1 hc with h1 | h2
      · exact ih (n / 10) (Nat.div_lt_self (by omega) (by norm_num)) c h1
      · simp only [List.mem_singleton] at h2
        subst h2
        exact digitChar_isDigit _ (Nat.mod_lt _ (by norm_num))

theorem digitsVal_append_one (l : List Char) (c : Char) :
    digitsVal (l ++ [c]) = digitsVal l * 10 + (c.toNat - 48) := by
  simp only [digitsVal, List.foldl_append]
  rfl

theorem digitsVal_repChars (n : Nat) : digitsVal (repChars n) = n := by
  induction n using Nat.strong_induction_on with
  | _ n ih =>
    by_cases h : n < 10
    · rw [repChars_lt10 n h]
      show 0 * 10 + ((Nat.digitChar n).toNat - 48) = n
      rw [digitChar_val48 n h]
      omega
    · rw [repChars_ge10 n (by omega), digitsVal_append_one,
        ih (n / 10) (Nat.div_lt_self (by omega) (by norm_num)),
        digitChar_val48 _ (Nat.mod_lt _ (by norm_num))]
      omega

theorem takeWhile_append_all {p : Char → Bool} {l1 l2 : List Char} (h : ∀ c ∈ l1, p c = true) :
    (l1 ++ l2).takeWhile p = l1 ++ l2.takeWhile p := by
  induction l1 with
  | nil => simp
  | cons a l ih =>
    rw [List.cons_append, List.takeWhile_cons, h a (by simp), List.cons_append]
    simp only [if_true]
    rw [ih (fun c hc => h c (by simp [hc]))]

/-- Parsing the numeric prefix of a template filename recovers the number. -/
theorem parse_repr_append (i : Nat) (suffix : String)
    (hs : suffix.data.takeWhile Char.isDigit = []) :
    get_article_id_from_filename (Nat.repr i ++ suffix) = i := by
  unfold get_article_id_from_filename
  have hdata : (Nat.repr i ++ suffix).data = repChars i ++ suffix.data := rfl
  rw [hdata, takeWhile_append_all (repChars_all_digits i), hs, List.append_nil]
  exact digitsVal_repChars i

theorem sameSet_iff {α : Type} [DecidableEq α] (a b : List α) :
    sameSet a b = true ↔ (∀ x, x ∈ a ↔ x ∈ b) := by
  simp only [sameSet, Bool.and_eq_true, List.all_eq_true, decide_eq_true_eq]
  constructor
  · rintro ⟨h1, h2⟩ x
    exact ⟨fun hx => h1 x hx, fun hx => h2 x hx⟩
  · intro h
    exact ⟨fun x hx => (h x).1 hx, fun x hx => (h x).2 hx⟩

/-- A filename cannot belong to both families: the two suffixes are
incompatible. -/
theorem suffix_exclusive (s : String) (h : nameEndsWith s "_raw.txt" = true) :
    nameEndsWith s "_meta.json" = false := by
  by_contra hm
  have h1 : "_raw.txt".data <:+ s.data := List.isSuffixOf_iff_suffix.1 h
  have h2 : "_meta.json".data <:+ s.data := by
    have : nameEndsWith s "_meta.json" = true := by
      cases hv : nameEndsWith s "_meta.json"
      · exact absurd hv hm
      · rfl
    exact List.isSuffixOf_iff_suffix.1 this
  have h3 : "_raw.txt".data <:+ "_meta.json".data :=
    List.suffix_of_suffix_length_le h1 h2 (by decide)
  exact absurd h3 (by decide)

theorem classifyFamilies_go (entries : List DirEntry) :
    ∀ (m r : List String),
      entries.foldl
        (fun acc e =>
          if nameEndsWith e.name "_meta.json" then (acc.1 ++ [e.name], acc.2)
          else if nameEndsWith e.name "_raw.txt" then (acc.1, acc.2 ++ [e.name])
          else acc) (m, r)
      = (m ++ (entries.filter (fun e => nameEndsWith e.name "_meta.json")).map DirEntry.name,
         r ++ (entries.filter (fun e => !(nameEndsWith e.name "_meta.json")
                && nameEndsWith e.name "_raw.txt")).map DirEntry.name) := by
  induction entries with
  | nil => simp
  | cons a l ih =>
    intro m r
    simp only [List.foldl_cons, List.filter_cons]
    by_cases h1 : nameEndsWith a.name "_meta.json"
    · simp [h1, ih]
    · by_cases h2 : nameEndsWith a.name "_raw.txt"
      · simp only [h1, h2]
        simp [ih]
      · simp only [h1, h2]
        simp [ih]

theorem classifyFamilies_spec (entries : List DirEntry) :
    classifyFamilies entries
      = ((entries.filter (fun e => nameEndsWith e.name "_meta.json")).map DirEntry.name,
         (entries.filter (fun e => !(nameEndsWith e.name "_meta.json")
            && nameEndsWith e.name "_raw.txt")).map DirEntry.name) := by
  unfold classifyFamilies
  rw [classifyFamilies_go entries [] []]
  simp

/-- The raw family of `classifyFamilies` is just the `_raw.txt` filter: a name
in the raw family can never carry the meta suffix as well. -/
theorem classifyFamilies_raw (entries : List DirEntry) :
    (classifyFamilies entries).2
      = (entries.filter (fun e => nameEndsWith e.name "_raw.txt")).map DirEntry.name := by
  rw [classifyFamilies_spec]
  have : entries.filter (fun e => !(nameEndsWith e.name "_meta.json")
            && nameEndsWith e.name "_raw.txt")
      = entries.filter (fun e => nameEndsWith e.name "_raw.txt") := by
    apply List.filter_congr
    intro e _
    cases hr : nameEndsWith e.name "_raw.txt"
    · simp
    · simp [suffix_exclusive e.name hr]
  rw [this]

/-- Inversion of `_validate_dataset` success on a directory: each of the five
checks passes. -/
theorem validate_ok_iff (entries : List DirEntry) :
    validate_dataset (.dir entries) = .ok () ↔
      entries.isEmpty = false
      ∧ (classifyFamilies entries).1.length = (classifyFamilies entries).2.length
      ∧ sameSet (classifyFamilies entries).1
          (meta_template (classifyFamilies entries).1.length) = true
      ∧ sameSet (classifyFamilies entries).2
          (raw_template (classifyFamilies entries).2.length) = true
      ∧ entries.any (fun e => e.size == 0) = false := by
  simp only [validate_dataset]
  split_ifs with h1 h2 h3 h4 h5 <;> simp_all

theorem parse_meta_template (n : Nat) :
    (meta_template n).map get_article_id_from_filename = oneTo n := by
  simp only [meta_template, oneTo, List.map_map]
  apply List.map_congr_left
  intro c _
  exact parse_repr_append (c + 1) "_meta.json" (by decide)

theorem parse_raw_template (n : Nat) :
    (raw_template n).map get_article_id_from_filename = oneTo n := by
  simp only [raw_template, oneTo, List.map_map]
  apply List.map_congr_left
  intro c _
  exact parse_repr_append (c + 1) "_raw.txt" (by decide)

theorem mem_map_iff_of_set_eq {a b : List String} (h : ∀ x, x ∈ a ↔ x ∈ b)
    (f : String → Nat) : ∀ y, y ∈ a.map f ↔ y ∈ b.map f := by
  intro y
  simp only [List.mem_map]
  constructor
  · rintro ⟨x, hx, rfl⟩
    exact ⟨x, (h x).1 hx, rfl⟩
  · rintro ⟨x, hx, rfl⟩
    exact ⟨x, (h x).2 hx, rfl⟩

theorem mem_oneTo (n k : Nat) : k ∈ oneTo n ↔ 1 ≤ k ∧ k ≤ n := by
  simp only [oneTo, List.mem_map, List.mem_range]
  constructor
  · rintro ⟨c, hc, rfl⟩
    omega
  · rintro ⟨h1, h2⟩
    exact ⟨k - 1, by omega, by omega⟩

/-- A family whose name set equals the meta template has numeric prefixes
exactly `{1, …, count}`. -/
theorem prefixesExact_of_meta_set (names : List String)
    (h : ∀ x, x ∈ names ↔ x ∈ meta_template names.length) :
    prefixesExact names = true := by
  unfold prefixesExact
  rw [sameSet_iff]
  intro k
  rw [mem_map_iff_of_set_eq h get_article_id_from_filename k, parse_meta_template]

/-- A family whose name set equals the raw template has numeric prefixes
exactly `{1, …, count}`. -/
theorem prefixesExact_of_raw_set (names : List String)
    (h : ∀ x, x ∈ names ↔ x ∈ raw_template names.length) :
    prefixesExact names = true := by
  unfold prefixesExact
  rw [sameSet_iff]
  intro k
  rw [mem_map_iff_of_set_eq h get_article_id_from_filename k, parse_raw_template]

/-- Claim C7: construction fails with the path-not-found fault when the path
does not exist, with the not-a-directory fault when it is not a directory, and
with the empty-dataset fault when the directory has no entries; an empty
directory (which would pass every family-consistency check vacuously) is
reported as empty, showing these checks precede the family checks. -/
theorem validate_dataset_path_checks :
    validate_dataset .missing = .error .pathNotFound
    ∧ validate_dataset .file = .error .notADirectory
    ∧ validate_dataset (.dir []) = .error .emptyDataset :=
  ⟨rfl, rfl, rfl⟩

/-- Claim C3: `CorpusManager` construction fails with the
inconsistent-dataset fault whenever the meta and raw families have different
cardinalities, or either family's numeric prefixes are not exactly the set
`{1, …, count}` — so a gap or duplicate is detected even when the two counts
agree. -/
theorem validation_rejects_inconsistent_families (entries : List DirEntry)
    (h : (classifyFamilies entries).1.length ≠ (classifyFamilies entries).2.length
      ∨ prefixesExact (classifyFamilies entries).1 = false
      ∨ prefixesExact (classifyFamilies entries).2 = false) :
    ∃ msg, validate_dataset (.dir entries) = .error (.inconsistentDataset msg) := by
  have hne : entries.isEmpty = false := by
    cases entries with
    | nil =>
      exfalso
      have hc : classifyFamilies ([] : List DirEntry) = ([], []) := rfl
      rw [hc] at h
      rcases h with h | h | h
      · exact h rfl
      · exact absurd h (by decide)
      · exact absurd h (by decide)
    | cons a l => rfl
  by_cases h2 : (classifyFamilies entries).1.length = (classifyFamilies entries).2.length
  · by_cases h3 : sameSet (classifyFamilies entries).1
        (meta_template (classifyFamilies entries).1.length) = true
    · by_cases h4 : sameSet (classifyFamilies entries).2
          (raw_template (classifyFamilies entries).2.length) = true
      · exfalso
        have hm : prefixesExact (classifyFamilies entries).1 = true :=
          prefixesExact_of_meta_set _ ((sameSet_iff _ _).1 h3)
        have hr : prefixesExact (classifyFamilies entries).2 = true :=
          prefixesExact_of_raw_set _ ((sameSet_iff _ _).1 h4)
        rcases h with h | h | h
        · exact h h2
        · rw [hm] at h; cases h
        · rw [hr] at h; cases h
      · have h3' : sameSet (classifyFamilies entries).1
            (meta_template (classifyFamilies entries).2.length) = true := by
          rw [← h2]; exact h3
        have h4' : sameSet (classifyFamilies entries).2
            (raw_template (classifyFamilies entries).2.length) = false :=
          Bool.eq_false_iff.mpr h4
        exact ⟨"IDs of raw files are inconsistent",
          by simp [validate_dataset, hne, h2, h3', h4']⟩
    · have h3' : sameSet (classifyFamilies entries).1
          (meta_template (classifyFamilies entries).2.length) = false := by
        rw [← h2]; exact Bool.eq_false_iff.mpr h3
      exact ⟨"IDs of meta files are inconsistent",
        by simp [validate_dataset, hne, h2, h3']⟩
  · exact ⟨"meta and raw counts differ", by simp [validate_dataset, hne, h2]⟩

/-- Witness for C3 at the gap dataset: the raw family `{1_raw.txt, 3_raw.txt}`
has prefixes `{1, 3}` instead of `{1, 2}` even though meta and raw counts
match, and validation indeed reports an inconsistent dataset. -/
theorem validation_rejects_inconsistent_families_witness :
    prefixesExact (classifyFamilies gapEntries).2 = false
    ∧ ∃ msg, validate_dataset (.dir gapEntries) = .error (.inconsistentDataset msg) :=
  ⟨by decide, validation_rejects_inconsistent_families gapEntries (Or.inr (Or.inr (by decide)))⟩

/-- Claim C4: whenever `CorpusManager` construction succeeds on a directory
with `N` raw-text files, the keys of the storage returned by `get_articles`
are the numeric ids parsed from the raw filenames, and their set is exactly
`{1, …, N}`. -/
theorem get_articles_key_set (entries : List DirEntry) (st : List (Nat × String))
    (hok : corpus_manager_init (.dir entries) = .ok st) :
    st.map Prod.fst
      = (entries.filter (fun e => nameEndsWith e.name "_raw.txt")).map
          (fun e => get_article_id_from_filename e.name)
    ∧ ∀ k : Nat, k ∈ st.map Prod.fst ↔
        1 ≤ k ∧ k ≤ (entries.filter (fun e => nameEndsWith e.name "_raw.txt")).length := by
  have hv : validate_dataset (.dir entries) = .ok () ∧ st = scan_dataset entries := by
    unfold corpus_manager_init at hok
    cases hval : validate_dataset (.dir entries) with
    | error f => rw [hval] at hok; cases hok
    | ok u =>
      cases u
      rw [hval] at hok
      simp only [Except.ok.injEq] at hok
      exact ⟨rfl, hok.symm⟩
  obtain ⟨hval, hst⟩ := hv
  obtain ⟨-, -, -, hraw, -⟩ := (validate_ok_iff entries).1 hval
  subst hst
  have hkeys : (scan_dataset entries).map Prod.fst
      = (entries.filter (fun e => nameEndsWith e.name "_raw.txt")).map
          (fun e => get_article_id_from_filename e.name) := by
    simp only [scan_dataset, List.map_map]
    rfl
  refine ⟨hkeys, ?_⟩
  intro k
  rw [hkeys]
  have hfil : (entries.filter (fun e => nameEndsWith e.name "_raw.txt")).map
        (fun e => get_article_id_from_filename e.name)
      = (classifyFamilies entries).2.map get_article_id_from_filename := by
    rw [classifyFamilies_raw, List.map_map]
    rfl
  rw [hfil]
  have hset : ∀ x, x ∈ (classifyFamilies entries).2
      ↔ x ∈ raw_template (classifyFamilies entries).2.length := (sameSet_iff _ _).1 hraw
  rw [mem_map_iff_of_set_eq hset _ k, parse_raw_template, mem_oneTo]
  have hlen2 : (classifyFamilies entries).2.length
      = (entries.filter (fun e => nameEndsWith e.name "_raw.txt")).length := by
    rw [classifyFamilies_raw, List.length_map]
  rw [hlen2]

/-- Witness for C4 at a consistent one-article dataset: construction succeeds,
the storage key list is `[1]`, and the key set is exactly `{1}`. -/
theorem get_articles_key_set_witness :
    corpus_manager_init (.dir oneArticleEntries) = .ok [(1, "text one")]
    ∧ ([(1, "text one")].map Prod.fst
        = (oneArticleEntries.filter (fun e => nameEndsWith e.name "_raw.txt")).map
            (fun e => get_article_id_from_filename e.name)
      ∧ ∀ k : Nat, k ∈ ([(1, "text one")].map Prod.fst) ↔
          1 ≤ k ∧ k ≤ (oneArticleEntries.filter
            (fun e => nameEndsWith e.name "_raw.txt")).length) :=
  ⟨rfl, get_articles_key_set oneArticleEntries [(1, "text one")] rfl⟩

/-- On a non-empty directory holding a zero-length entry, validation always
reports an inconsistent dataset. -/
theorem validate_zero_size_error (entries : List DirEntry) (e : DirEntry)
    (he : e ∈ entries) (hz : e.size = 0) :
    ∃ msg, validate_dataset (.dir entries) = .error (.inconsistentDataset msg) := by
  have hne : entries.isEmpty = false := by
    cases entries with
    | nil => cases he
    | cons a l => rfl
  have hany : entries.any (fun x => x.size == 0) = true := by
    rw [List.any_eq_true]
    exact ⟨e, he, by simp [hz]⟩
  by_cases h2 : (classifyFamilies entries).1.length = (classifyFamilies entries).2.length
  · by_cases h3 : sameSet (classifyFamilies entries).1
        (meta_template (classifyFamilies entries).1.length) = true
    · by_cases h4 : sameSet (classifyFamilies entries).2
          (raw_template (classifyFamilies entries).2.length) = true
      · have h3' : sameSet (classifyFamilies entries).1
            (meta_template (classifyFamilies entries).2.length) = true := by
          rw [← h2]; exact h3
        have hex : ∃ x ∈ entries, x.size = 0 := ⟨e, he, hz⟩
        exact ⟨"empty file", by simp [validate_dataset, hne, h2, h3', h4, hex]⟩
      · have h3' : sameSet (classifyFamilies entries).1
            (meta_template (classifyFamilies entries).2.length) = true := by
          rw [← h2]; exact h3
        have h4' : sameSet (classifyFamilies entries).2
            (raw_template (classifyFamilies entries).2.length) = false :=
          Bool.eq_false_iff.mpr h4
        exact ⟨"IDs of raw files are inconsistent",
          by simp [validate_dataset, hne, h2, h3', h4']⟩
    · have h3' : sameSet (classifyFamilies entries).1
          (meta_template (classifyFamilies entries).2.length) = false := by
        rw [← h2]; exact Bool.eq_false_iff.mpr h3
      exact ⟨"IDs of meta files are inconsistent",
        by simp [validate_dataset, hne, h2, h3']⟩
  · exact ⟨"meta and raw counts differ", by simp [validate_dataset, hne, h2]⟩

/-- Claim C6: a zero-length file in the meta family or in the raw family makes
`CorpusManager` construction fail with the inconsistent-dataset fault, even
when every filename and cardinality check passes. -/
theorem zero_length_family_file_rejected (entries : List DirEntry) (e : DirEntry)
    (he : e ∈ entries)
    (_hfam : nameEndsWith e.name "_meta.json" = true ∨ nameEndsWith e.name "_raw.txt" = true)
    (hz : e.size = 0) :
    ∃ msg, validate_dataset (.dir entries) = .error (.inconsistentDataset msg) :=
  validate_zero_size_error entries e he hz

/-- Witness for C6: a dataset whose meta file is empty while all name and
cardinality checks pass is rejected as inconsistent. -/
theorem zero_length_family_file_rejected_witness :
    (⟨"1_meta.json", ""⟩ : DirEntry) ∈ emptyMetaEntries
    ∧ (⟨"1_meta.json", ""⟩ : DirEntry).size = 0
    ∧ ∃ msg, validate_dataset (.dir emptyMetaEntries) = .error (.inconsistentDataset msg) :=
  ⟨by decide, by decide,
    zero_length_family_file_rejected emptyMetaEntries ⟨"1_meta.json", ""⟩
      (by decide) (Or.inl (by decide)) (by decide)⟩

/-- Claim C9: the zero-length check covers every entry of the directory, not
only the two families: a zero-length file matching neither family suffix (for
example a derived cleaned-text file) also makes construction fail with the
inconsistent-dataset fault. -/
theorem zero_length_other_file_rejected (entries : List DirEntry) (e : DirEntry)
    (he : e ∈ entries)
    (_hmeta : nameEndsWith e.name "_meta.json" = false)
    (_hraw : nameEndsWith e.name "_raw.txt" = false)
    (hz : e.size = 0) :
    ∃ msg, validate_dataset (.dir entries) = .error (.inconsistentDataset msg) :=
  validate_zero_size_error entries e he hz

/-- Witness for C9: an empty `1_cleaned.txt` next to well-formed families is
rejected as inconsistent. -/
theorem zero_length_other_file_rejected_witness :
    (⟨"1_cleaned.txt", ""⟩ : DirEntry) ∈ emptyCleanedEntries
    ∧ nameEndsWith "1_cleaned.txt" "_meta.json" = false
    ∧ nameEndsWith "1_cleaned.txt" "_raw.txt" = false
    ∧ ∃ msg, validate_dataset (.dir emptyCleanedEntries) = .error (.inconsistentDataset msg) :=
  ⟨by decide, by decide, by decide,
    zero_length_other_file_rejected emptyCleanedEntries ⟨"1_cleaned.txt", ""⟩
      (by decide) (by decide) (by decide) (by decide)⟩

/-- Claim C10: a non-empty directory whose entries are all non-empty and none
of which belongs to either family passes validation, and the resulting article
storage is the empty mapping. -/
theorem no_family_files_ok (entries : List DirEntry)
    (hne : entries ≠ [])
    (hsz : ∀ e ∈ entries, e.size ≠ 0)
    (hfam : ∀ e ∈ entries, nameEndsWith e.name "_meta.json" = false
            ∧ nameEndsWith e.name "_raw.txt" = false) :
    corpus_manager_init (.dir entries) = .ok [] := by
  have hclass : classifyFamilies entries = ([], []) := by
    rw [classifyFamilies_spec]
    have h1 : entries.filter (fun e => nameEndsWith e.name "_meta.json") = [] := by
      rw [List.filter_eq_nil_iff]
      intro a ha
      simp [(hfam a ha).1]
    have h2 : entries.filter (fun e => !(nameEndsWith e.name "_meta.json")
        && nameEndsWith e.name "_raw.txt") = [] := by
      rw [List.filter_eq_nil_iff]
      intro a ha
      simp [(hfam a ha).2]
    rw [h1, h2]
    rfl
  have hval : validate_dataset (.dir entries) = .ok () := by
    rw [validate_ok_iff]
    refine ⟨?_, ?_, ?_, ?_, ?_⟩
    · cases entries with
      | nil => exact absurd rfl hne
      | cons a l => rfl
    · rw [hclass]
    · rw [hclass]
      decide
    · rw [hclass]
      decide
    · rw [List.any_eq_false]
      intro x hx
      simp [hsz x hx]
  have hscan : scan_dataset entries = [] := by
    unfold scan_dataset
    have h3 : entries.filter (fun e => nameEndsWith e.name "_raw.txt") = [] := by
      rw [List.filter_eq_nil_iff]
      intro a ha
      simp [(hfam a ha).2]
    rw [h3]
    rfl
  simp [corpus_manager_init, hval, hscan]

/-- Witness for C10: a directory holding only `notes.txt` is accepted and
yields the empty article storage. -/
theorem no_family_files_ok_witness :
    noFamilyEntries ≠ []
    ∧ (∀ e ∈ noFamilyEntries, e.size ≠ 0)
    ∧ corpus_manager_init (.dir noFamilyEntries) = .ok [] :=
  ⟨by decide, by decide,
    no_family_files_ok noFamilyEntries (by decide) (by decide) (by decide)⟩

/-- Claim C1 (code bug): `_count_frequencies` does not sum counts across all
sentences of the document.  On a document whose first sentence holds a `NOUN`
and whose last sentence holds a `VERB`, it returns only the last sentence's
histogram — the `NOUN` entry is missing — while the per-document accumulation
demanded by the spec holds both tags. -/
theorem count_frequencies_last_sentence_only :
    count_frequencies twoSentenceDoc = [("VERB", 1)]
    ∧ "NOUN" ∈ twoSentenceDoc.flatten.map Word.upos
    ∧ spec_pos_frequencies twoSentenceDoc = [("NOUN", 1), ("VERB", 1)]
    ∧ count_frequencies twoSentenceDoc ≠ spec_pos_frequencies twoSentenceDoc := by
  decide

/-- Claim C8: loading the persisted annotation artifact fails with the
empty-artifact fault exactly when the artifact is zero-length, and otherwise
returns the parsed document. -/
theorem from_conllu_empty_iff (parse : String → ConlluDoc) (content : String) :
    (from_conllu parse content = .error .emptyArtifact ↔ content.length = 0)
    ∧ (content.length ≠ 0 → from_conllu parse content = .ok (parse content)) := by
  constructor
  · constructor
    · intro h
      by_contra hc
      simp [from_conllu, hc] at h
    · intro h
      simp [from_conllu, h]
  · intro h
    simp [from_conllu, h]

/-- The per-article loop never performs an annotate call of its own. -/
theorem tpp_process_no_analyze (conllu : List String) (arts : List Article) :
    ∀ idx : Nat, ((tpp_process conllu idx arts).1.filter TraceEvent.isAnalyzeCall) = [] := by
  induction arts with
  | nil => intro idx; rfl
  | cons a rest ih =>
    intro idx
    simp only [tpp_process, List.filter_cons]
    simp [TraceEvent.isAnalyzeCall, ih (idx + 1)]

/-- The article produced at position `i` of the loop started at index `idx`
carries the stripped text and the batch result at index `idx + i`. -/
theorem tpp_process_out (conllu : List String) (arts : List Article) :
    ∀ (idx i : Nat) (a : Article), arts[i]? = some a →
      ((tpp_process conllu idx arts).2)[i]? =
        some { text := strip_placeholder a.text, conllu := conllu[idx + i]? } := by
  induction arts with
  | nil =>
    intro idx i a h
    simp at h
  | cons b rest ih =>
    intro idx i a h
    cases i with
    | zero =>
      simp only [List.getElem?_cons_zero, Option.some.injEq] at h
      subst h
      simp [tpp_process]
    | succ i =>
      simp only [List.getElem?_cons_succ] at h
      simp only [tpp_process, List.getElem?_cons_succ]
      rw [ih (idx + 1) i a h]
      have harith : idx + 1 + i = idx + (i + 1) := by omega
      rw [harith]

/-- The loop's trace holds, at positions `2i` and `2i + 1`, the cleaned-text
write and then the artifact write for the `i`-th processed article. -/
theorem tpp_process_trace (conllu : List String) (arts : List Article) :
    ∀ (idx i : Nat) (a : Article), arts[i]? = some a →
      ((tpp_process conllu idx arts).1)[2 * i]? =
          some (TraceEvent.cleanedWrite (strip_placeholder a.text))
      ∧ ((tpp_process conllu idx arts).1)[2 * i + 1]? =
          some (TraceEvent.conlluWrite conllu[idx + i]?) := by
  induction arts with
  | nil =>
    intro idx i a h
    simp at h
  | cons b rest ih =>
    intro idx i a h
    cases i with
    | zero =>
      simp only [List.getElem?_cons_zero, Option.some.injEq] at h
      subst h
      constructor
      · simp [tpp_process]
      · simp [tpp_process]
    | succ i =>
      simp only [List.getElem?_cons_succ] at h
      have h1 : 2 * (i + 1) = 2 * i + 1 + 1 := by omega
      have h2 : 2 * (i + 1) + 1 = 2 * i + 1 + 1 + 1 := by omega
      have harith : idx + 1 + i = idx + (i + 1) := by omega
      constructor
      · rw [h1]
        simp only [tpp_process, List.getElem?_cons_succ]
        exact (ih (idx + 1) i a h).1
      · rw [h2]
        simp only [tpp_process, List.getElem?_cons_succ]
        rw [(ih (idx + 1) i a h).2, harith]

/-- Claim C5: `TextProcessingPipeline.run` makes exactly one batch annotate
call, over the articles' raw texts in corpus iteration order; for each
article `i` it strips the placeholder marker, persists the cleaned text, then
attaches the `i`-th result of the batch to the `i`-th article and persists
it — the cleaned-text write precedes the artifact write in the trace. -/
theorem tpp_run_contract (analyze : List String → List String) (articles : List Article) :
    ((tpp_run analyze articles).1.filter TraceEvent.isAnalyzeCall)
        = [TraceEvent.analyzeCall (articles.map Article.text)]
    ∧ (∀ (i : Nat) (a : Article), articles[i]? = some a →
        ((tpp_run analyze articles).2)[i]? =
          some { text := strip_placeholder a.text,
                 conllu := (analyze (articles.map Article.text))[i]? }
        ∧ ((tpp_run analyze articles).1)[2 * i + 1]? =
            some (TraceEvent.cleanedWrite (strip_placeholder a.text))
        ∧ ((tpp_run analyze articles).1)[2 * i + 2]? =
            some (TraceEvent.conlluWrite (analyze (articles.map Article.text))[i]?)) := by
  constructor
  · simp only [tpp_run, List.filter_cons]
    simp [TraceEvent.isAnalyzeCall,
      tpp_process_no_analyze (analyze (articles.map Article.text)) articles 0]
  · intro i a h
    refine ⟨?_, ?_, ?_⟩
    · show ((tpp_process (analyze (articles.map Article.text)) 0 articles).2)[i]? = _
      rw [tpp_process_out (analyze (articles.map Article.text)) articles 0 i a h]
      simp
    · show ((TraceEvent.analyzeCall (articles.map Article.text)
          :: (tpp_process (analyze (articles.map Article.text)) 0 articles).1))[2 * i + 1]? = _
      rw [List.getElem?_cons_succ]
      exact (tpp_process_trace (analyze (articles.map Article.text)) articles 0 i a h).1
    · show ((TraceEvent.analyzeCall (articles.map Article.text)
          :: (tpp_process (analyze (articles.map Article.text)) 0 articles).1))[2 * i + 2]? = _
      rw [List.getElem?_cons_succ]
      have := (tpp_process_trace (analyze (articles.map Article.text)) articles 0 i a h).2
      rw [this]
      simp

/-- Witness for C5 on two demo articles: the single batch call carries both
raw texts in order, the first article ends with its marker stripped and the
first batch result attached, and its cleaned-text write precedes its
artifact write. -/
theorem tpp_run_contract_witness :
    ((tpp_run demoAnalyze demoArticles).1.filter TraceEvent.isAnalyzeCall)
        = [TraceEvent.analyzeCall ["aNBSPb", "c"]]
    ∧ ((tpp_run demoAnalyze demoArticles).2)[0]? =
        some { text := "ab", conllu := some "aNBSPb#" }
    ∧ ((tpp_run demoAnalyze demoArticles).1)[1]? =
        some (TraceEvent.cleanedWrite "ab")
    ∧ ((tpp_run demoAnalyze demoArticles).1)[2]? =
        some (TraceEvent.conlluWrite (some "aNBSPb#")) := by
  have h := tpp_run_contract demoAnalyze demoArticles
  have h0 := h.2 0 { text := "aNBSPb" } rfl
  exact ⟨h.1, h0.1, h0.2.1, h0.2.2⟩

/-- Along any path, the rank decreases by at least the path length whenever
every edge strictly decreases the rank. -/
theorem pathN_rank (g : DepGraph) (rank : Nat → Nat)
    (hr : ∀ e ∈ g.edges, rank e.dst < rank e.src)
    {a b k : Nat} (hp : PathN g a b k) : rank b + k ≤ rank a := by
  induction hp with
  | refl a => omega
  | step e he hs hp ih =>
    have hlt := hr e he
    subst hs
    omega

/-- A graph whose edges strictly decrease some rank function is acyclic. -/
theorem acyclic_of_rank (g : DepGraph) (rank : Nat → Nat)
    (hr : ∀ e ∈ g.edges, rank e.dst < rank e.src) : Acyclic g := by
  intro a k hp
  have := pathN_rank g rank hr hp
  omega

/-- Every counted path has a node-listed version of matching length. -/
theorem pathN_to_pathL (g : DepGraph) {a b k : Nat} (hp : PathN g a b k) :
    ∃ l, PathL g a b l ∧ l.length = k + 1 := by
  induction hp with
  | refl a => exact ⟨[a], PathL.refl a, rfl⟩
  | step e he hs hp ih =>
    obtain ⟨l, hl, hlen⟩ := ih
    subst hs
    exact ⟨e.src :: l, PathL.step e he rfl hl, by simp [hlen]⟩

/-- Every node visited by a path is reachable from the path's start. -/
theorem pathL_mem_to_pathN (g : DepGraph) :
    ∀ {b d : Nat} {l : List Nat}, PathL g b d l → ∀ a ∈ l, ∃ j, PathN g b a j := by
  intro b d l hp
  induction hp with
  | refl b =>
    intro a ha
    simp only [List.mem_singleton] at ha
    subst ha
    exact ⟨0, PathN.refl a⟩
  | step e he hs hp ih =>
    intro x hx
    rcases List.mem_cons.1 hx with h1 | h2
    · subst h1
      exact ⟨0, PathN.refl x⟩
    · obtain ⟨j, hj⟩ := ih x h2
      subst hs
      exact ⟨j + 1, PathN.step e he rfl hj⟩

/-- In an acyclic graph no path visits a node twice. -/
theorem pathL_nodup (g : DepGraph) (hacyc : Acyclic g) :
    ∀ {a d : Nat} {l : List Nat}, PathL g a d l → l.Nodup := by
  intro a d l hp
  induction hp with
  | refl a => simp
  | step e he hs hp ih =>
    refine List.nodup_cons.2 ⟨?_, ih⟩
    intro hmem
    obtain ⟨j, hj⟩ := pathL_mem_to_pathN g hp _ hmem
    subst hs
    have hcyc : PathN g e.src e.src (j + 1) := PathN.step e he rfl hj
    have := hacyc e.src (j + 1) hcyc
    omega

/-- Every node visited by a path is the start or the destination of some
edge. -/
theorem pathL_support (g : DepGraph) :
    ∀ {a d : Nat} {l : List Nat}, PathL g a d l →
      ∀ x ∈ l, x = a ∨ ∃ e ∈ g.edges, DepEdge.dst e = x := by
  intro a d l hp
  induction hp with
  | refl a =>
    intro x hx
    simp only [List.mem_singleton] at hx
    exact Or.inl hx
  | step e he hs hp ih =>
    intro x hx
    rcases List.mem_cons.1 hx with h1 | h2
    · exact Or.inl h1
    · rcases ih x h2 with h3 | h3
      · subst h3
        exact Or.inr ⟨e, he, rfl⟩
      · exact Or.inr h3

/-- The root of a built subtree is the node it was built from. -/
theorem build_subtree_rootId (g : DepGraph) (fuel n : Nat) :
    (build_subtree g fuel n).rootId = n := by
  cases fuel <;> rfl

/-- A node at path distance within the fuel bound appears in the built
subtree. -/
theorem pathN_mem_subtree (g : DepGraph) :
    ∀ {c m k : Nat}, PathN g c m k → ∀ fuel, k ≤ fuel →
      MemTree m (build_subtree g fuel c) := by
  intro c m k hp
  induction hp with
  | refl a =>
    intro fuel _
    cases fuel with
    | zero => exact MemTree.here a _ []
    | succ f => exact MemTree.here a _ _
  | step e he hs hp ih =>
    intro fuel hk
    cases fuel with
    | zero => omega
    | succ f =>
      subst hs
      have hc : e.dst ∈ childrenOf g e.src := by
        unfold childrenOf
        apply List.mem_map_of_mem
        rw [List.mem_filter]
        exact ⟨he, by simp⟩
      simp only [build_subtree]
      exact MemTree.child (build_subtree g f e.dst)
        (List.mem_map_of_mem _ hc) (ih f (by omega))

/-- On an acyclic graph whose edge destinations are nodes, the subtree built
with the graph's node count as fuel contains every node reachable from its
root. -/
theorem reach_mem_subtree (g : DepGraph)
    (hclosed : ∀ e ∈ g.edges, DepEdge.dst e ∈ nodeIds g)
    (hacyc : Acyclic g) {c m : Nat} (hc : c ∈ nodeIds g)
    (hr : Reaches g c m) :
    MemTree m (build_subtree g g.nodes.length c) := by
  obtain ⟨k, hp⟩ := hr
  obtain ⟨l, hl, hlen⟩ := pathN_to_pathL g hp
  have hnd : l.Nodup := pathL_nodup g hacyc hl
  have hsub : l ⊆ nodeIds g := by
    intro x hx
    rcases pathL_support g hl x hx with h1 | ⟨e, he, hdst⟩
    · subst h1
      exact hc
    · subst hdst
      exact hclosed e he
  have hle : l.length ≤ (nodeIds g).length := (List.Nodup.subperm hnd hsub).length_le
  have hlen2 : (nodeIds g).length = g.nodes.length := List.length_map _ _
  exact pathN_mem_subtree g hp g.nodes.length (by omega)

/-- Every edge of a graph built from a sentence ends at a node of the graph:
the dependent of each edge is a word of the sentence. -/
theorem make_graph_closed (sentence : List Word) :
    ∀ e ∈ (make_graph sentence).edges, DepEdge.dst e ∈ nodeIds (make_graph sentence) := by
  intro e he
  simp only [make_graph] at he
  obtain ⟨w, hw, rfl⟩ := List.mem_map.1 he
  have hw' : w ∈ sentence := (List.mem_filter.1 hw).1
  simp only [nodeIds, make_graph, List.map_map]
  exact List.mem_map.2 ⟨w, hw', rfl⟩

/-- Claim C2: for every sentence dependency graph and every edge `(h → c)`
matching the pattern, the constructed `MatchTree` is rooted at `h`, has `c`
as its single immediate child, and that child's subtree contains every node
reachable from `c` by following outgoing edges transitively — `c`'s entire
governed subtree, not merely `c`'s direct children.  The graph is assumed
acyclic, the spec's tree invariant for well-formed sentences. -/
theorem match_tree_full_subtree (pat : String × String × String)
    (sentence : List Word) (e : DepEdge)
    (he : e ∈ (make_graph sentence).edges)
    (hm : matches_edge pat (make_graph sentence) e = true)
    (hacyc : Acyclic (make_graph sentence)) :
    make_match_tree (make_graph sentence) e ∈ graph_matches pat (make_graph sentence)
    ∧ (make_match_tree (make_graph sentence) e).rootId = e.src
    ∧ (make_match_tree (make_graph sentence) e).childNodes
        = [build_subtree (make_graph sentence) (make_graph sentence).nodes.length e.dst]
    ∧ (build_subtree (make_graph sentence) (make_graph sentence).nodes.length e.dst).rootId
        = e.dst
    ∧ ∀ m, Reaches (make_graph sentence) e.dst m →
        MemTree m (build_subtree (make_graph sentence) (make_graph sentence).nodes.length e.dst) := by
  refine ⟨?_, rfl, rfl, build_subtree_rootId _ _ e.dst, ?_⟩
  · unfold graph_matches
    apply List.mem_map_of_mem
    rw [List.mem_filter]
    exact ⟨he, hm⟩
  · intro m hr
    exact reach_mem_subtree (make_graph sentence) (make_graph_closed sentence) hacyc
      (make_graph_closed sentence e he) hr

/-- Witness for C2 at the Scenario C graph: the verb→noun edge matches, the
match tree is rooted at the verb with the noun as single child, and every
node reachable from the noun (the determiner and the modifier included) is in
the noun's subtree. -/
theorem match_tree_full_subtree_witness :
    (scenarioCEdge ∈ scenarioCGraph.edges
      ∧ matches_edge scenarioCPattern scenarioCGraph scenarioCEdge = true)
    ∧ (make_match_tree scenarioCGraph scenarioCEdge
          ∈ graph_matches scenarioCPattern scenarioCGraph
      ∧ (make_match_tree scenarioCGraph scenarioCEdge).rootId = 1
      ∧ (make_match_tree scenarioCGraph scenarioCEdge).childNodes
          = [build_subtree scenarioCGraph 4 2]
      ∧ (build_subtree scenarioCGraph 4 2).rootId = 2
      ∧ ∀ m, Reaches scenarioCGraph 2 m → MemTree m (build_subtree scenarioCGraph 4 2)) := by
  have hacyc : Acyclic scenarioCGraph :=
    acyclic_of_rank scenarioCGraph (fun n => 5 - n) (by decide)
  have h := match_tree_full_subtree scenarioCPattern scenarioCSentence scenarioCEdge
    (by decide) (by decide) hacyc
  exact ⟨⟨by decide, by decide⟩, h.1, h.2.1, h.2.2.1, h.2.2.2.1, h.2.2.2.2⟩

/-- Witness for C8: a one-character artifact parses, a zero-length artifact
faults. -/
theorem from_conllu_empty_iff_witness :
    ("x".length ≠ 0
      ∧ from_conllu (fun _ => ([[]] : ConlluDoc)) "x" = .ok [[]])
    ∧ from_conllu (fun _ => ([[]] : ConlluDoc)) "" = .error .emptyArtifact :=
  ⟨⟨by decide, (from_conllu_empty_iff (fun _ => ([[]] : ConlluDoc)) "x").2 (by decide)⟩,
    (from_conllu_empty_iff (fun _ => ([[]] : ConlluDoc)) "").1.mpr (by decide)⟩

end Pipeline
